import Mathlib

/-!
Verification of the Questio_AV authorship-verification pipeline
(`src/src/main.py`, class `AuthorshipVerification`) against its
natural-language specification.

Strings are embedded as `List Char` so that the Python string operations
used by the code (slicing `s[:-k]`, `str.find`, `in`-substring test,
`str.endswith`, `str.rstrip`, list repetition `l * n`) become explicit,
executable Lean functions with the exact Python semantics (including the
`find = -1` negative-slice corner in `get_processed_segments`).
-/

/-- Strings of the embedded program, as explicit character lists. -/
abbrev Str := List Char

/-- The two-character suffix `_0` that `run` appends to every filename
(`main.py` line 432) and that the group-id format builds on. -/
def uz : Str := ['_', '0']

/-- Boolean test that `s` begins with `pat` (Python `str.startswith`,
also the building block for `find` and `endswith`). -/
def startsWith : Str → Str → Bool
  | _, [] => true
  | [], _ :: _ => false
  | c :: s, p :: ps => if c = p then startsWith s ps else false

/-- Python `s.find(pat)`: index of the first occurrence of `pat` in `s`,
`none` standing for Python's `-1`. -/
def findSub (pat : Str) : Str → Option Nat
  | [] => if startsWith [] pat then some 0 else none
  | c :: t => if startsWith (c :: t) pat then some 0 else (findSub pat t).map (· + 1)

/-- Python `pat in s` substring containment, used by `run` to select test
documents (`main.py` line 450). -/
def containsSub (s pat : Str) : Bool := (findSub pat s).isSome

/-- Python `s.endswith(suffix_)`, used by `get_processed_segments` to
recognise whole-document group ids (`main.py` line 194). -/
def pyEndswith (s suffix_ : Str) : Bool := startsWith s.reverse suffix_.reverse

/-- Python `s.rstrip()`: strip trailing whitespace, as applied to author
names in `run` (`main.py` lines 443 and 454). -/
def rstrip (s : Str) : Str := (s.reverse.dropWhile Char.isWhitespace).reverse

/-- Python slice `s[:-k]` for a nonnegative `k` (empty result when
`k ≥ len(s)`, exactly as in Python). -/
def pySliceDropLast (k : Nat) (s : Str) : Str := s.take (s.length - k)

/-- Cache key used by the whole-document branch of
`get_processed_segments`: `group[:-4]` (`main.py` line 195). -/
def wholeDocKey (group : Str) : Str := pySliceDropLast 4 group

/-- Cache key used by the fragment branch of `get_processed_segments`:
`group[:group.find('_0')]` (`main.py` lines 198-199).  When `find`
returns `-1` the Python slice `group[:-1]` drops the last character. -/
def fragmentKey (group : Str) : Str :=
  match findSub uz group with
  | some k => group.take k
  | none => pySliceDropLast 1 group

/-- Linguistic annotation of a whole document (the spaCy `Doc` object),
abstracted to the two operations `find_segment` uses: `text.find` of a
leading sentence (possibly `-1`, hence `Int`) and `char_span` over
character offsets, which can fail (`None`). -/
structure PDoc (S : Type) where
  textFind : Str → Int
  charSpan : Int → Int → Option S

/-- Embedding of `AuthorshipVerification.find_segment` (`main.py` lines
172-182): locate the segment's first sentence in the processed document's
text, take the span of the segment's length, and on a failed `char_span`
retry exactly once with the end offset decremented by 1.  `sentHead`
abstracts `nltk.sent_tokenize(segment)[0]`. -/
def find_segment {S : Type} (sentHead : Str → Str) (segment : Str) (d : PDoc S) : Option S :=
  let start_idx : Int := d.textFind (sentHead segment)
  let end_idx : Int := start_idx + segment.length
  match d.charSpan start_idx end_idx with
  | some sp => some sp
  | none => d.charSpan start_idx (end_idx - 1)

/-- Embedding of `AuthorshipVerification.get_processed_segments`
(`main.py` lines 184-208).  Iterates `zip(X, groups)`; a group ending in
`_0_0` is looked up in the processed-document cache under `group[:-4]`
and the whole document is appended, any other group is looked up under
`group[:group.find('_0')]` and the located span — possibly `None` — is
appended while `none_count` tracks the failures.  A missing cache key is
a Python `KeyError`, modelled as an overall `none`. -/
def get_processed_segments {S : Type} (sentHead : Str → Str)
    (cache : Str → Option (PDoc S)) :
    List Str → List Str → Option (List (Option (PDoc S ⊕ S)) × Nat)
  | [], _ => some ([], 0)
  | _ :: _, [] => some ([], 0)
  | segment :: X, group :: groups =>
    if pyEndswith group (uz ++ uz) then
      match cache (wholeDocKey group) with
      | none => none
      | some d =>
        match get_processed_segments sentHead cache X groups with
        | none => none
        | some (rest, cnt) => some (some (Sum.inl d) :: rest, cnt)
    else
      match cache (fragmentKey group) with
      | none => none
      | some d =>
        let ps := find_segment sentHead segment d
        match get_processed_segments sentHead cache X groups with
        | none => none
        | some (rest, cnt) =>
          some (ps.map Sum.inr :: rest, if ps.isSome then cnt else cnt + 1)

/-- Result record of `AuthorshipVerification.loo_split` (`main.py` lines
95-107), field names following the source's tuple components. -/
structure LooSplit where
  X_dev : List Str
  X_test : List Str
  y_dev : List Nat
  y_test : List Nat
  groups_dev : List Str
  groups_test : List Str

/-- Embedding of `AuthorshipVerification.loo_split`: removal of the
held-out document from every parallel vector by index `i` via
`np.delete(·, i)` (`List.eraseIdx`), with the test side the singleton of
the held-out document, label and filename. -/
def loo_split (i : Nat) (X : List Str) (y : List Nat) (doc : Str) (ylabel : Nat)
    (filenames : List Str) : LooSplit :=
  { X_dev := X.eraseIdx i
    X_test := [doc]
    y_dev := y.eraseIdx i
    y_test := [ylabel]
    groups_dev := filenames.eraseIdx i
    groups_test := [filenames.getD i []] }

/-- Test-index resolution of `AuthorshipVerification.run` (`main.py`
lines 447-454): a non-empty (Python-truthy) `test_document` selects every
index whose filename contains it as a substring; an empty one selects
every index whose stripped author equals the target. -/
def run_test_indices (test_document : Str) (filenames authors : List Str)
    (target : Str) : List Nat :=
  if test_document.isEmpty then
    (((filenames.zip authors).enum.filter
      (fun p => rstrip p.2.2 == target)).map Prod.fst)
  else
    ((filenames.enum.filter (fun p => containsSub p.2 test_document)).map Prod.fst)

/-- Observable outcome of `AuthorshipVerification.run`: either normal
completion with the list of processed held-out indices, or an explicit
configuration error.  The source has no validation or error path for the
selector, so `run_outcome` below never produces `configError`. -/
inductive RunOutcome where
  | ok (unitsProcessed : List Nat)
  | configError (msg : Str)
deriving DecidableEq

/-- Boolean discriminator for `RunOutcome.configError`. -/
def RunOutcome.isConfigError : RunOutcome → Bool
  | RunOutcome.ok _ => false
  | RunOutcome.configError _ => true

/-- Embedding of the selector-resolution and unit-loop control flow of
`AuthorshipVerification.run` (`main.py` lines 447-459): the resolved
indices are processed one by one and the run completes normally —
including when the selector resolves to no index at all. -/
def run_outcome (test_document : Str) (filenames authors : List Str)
    (target : Str) : RunOutcome :=
  RunOutcome.ok (run_test_indices test_document filenames authors target)

/-- From `run` (`main.py` line 432): every loader filename gets `_0`
appended before the processed-document cache is populated with it. -/
def runDocId (filename : Str) : Str := filename ++ uz

/-- Modelled from the spec: the segmentation module
(`data_preparation.segmentation`, not under `src/`) assigns group ids of
the form `<document_id>_<fragment_index>_<sub_index>`, the whole-document
fragment carrying the suffix `_0_0`; the document id it is given is the
`_0`-suffixed filename produced by `run`. -/
def wholeDocGroup (docid : Str) : Str := docid ++ uz ++ uz

/-- Call-site truncation in `_process_single_document` (`main.py` line
521): `save_results` receives `groups_test[0][:-2]` as `doc_name`. -/
def process_single_document_doc_name (groups_test_head : Str) : Str :=
  pySliceDropLast 2 groups_test_head

/-- Field derivation inside `save_results` (`main.py` line 407): the
`Document test` field is `doc_name[:-2]`. -/
def save_results_document_test (doc_name : Str) : Str :=
  pySliceDropLast 2 doc_name

/-- The `Document test` value actually written for a held-out unit, as
the composition of the call-site truncation and the in-function one. -/
def saved_document_test_field (groups_test_head : Str) : Str :=
  save_results_document_test (process_single_document_doc_name groups_test_head)

/-- Ordered insertion into a sorted rational list (helper for the
median). -/
def insertOrd (x : ℚ) : List ℚ → List ℚ
  | [] => [x]
  | y :: t => if x ≤ y then x :: y :: t else y :: insertOrd x t

/-- Insertion sort of a rational list (helper for the median). -/
def sortQ : List ℚ → List ℚ
  | [] => []
  | x :: t => insertOrd x (sortQ t)

/-- `np.median`: middle element of the sorted values for an odd count,
mean of the two middle elements for an even one.  NumPy returns NaN on an
empty input; the embedding returns 0 there (the case is never reached by
the claims). -/
def npMedian (l : List ℚ) : ℚ :=
  let s := sortQ l
  let n := s.length
  if n = 0 then 0
  else if n % 2 = 1 then s.getD (n / 2) 0
  else (s.getD (n / 2 - 1) 0 + s.getD (n / 2) 0) / 2

/-- Python list repetition `l * n`. -/
def pyListMul {α : Type} (l : List α) (n : Nat) : List α :=
  (List.replicate n l).flatten

/-- The label broadcast of `evaluate_model` (`main.py` line 370):
`y_test = np.array(y_test * X_test.shape[0])`. -/
def broadcast_labels (y_test : List Nat) (n_rows : Nat) : List Nat :=
  pyListMul y_test n_rows

/-- True positives of the binary comparison (positive label 1). -/
def tp_count (y_true y_pred : List Nat) : Nat :=
  (y_true.zip y_pred).countP (fun q => q.1 == 1 && q.2 == 1)

/-- False positives of the binary comparison. -/
def fp_count (y_true y_pred : List Nat) : Nat :=
  (y_true.zip y_pred).countP (fun q => !(q.1 == 1) && q.2 == 1)

/-- False negatives of the binary comparison. -/
def fn_count (y_true y_pred : List Nat) : Nat :=
  (y_true.zip y_pred).countP (fun q => q.1 == 1 && !(q.2 == 1))

/-- True negatives of the binary comparison. -/
def tn_count (y_true y_pred : List Nat) : Nat :=
  (y_true.zip y_pred).countP (fun q => !(q.1 == 1) && !(q.2 == 1))

/-- `sklearn.metrics.accuracy_score` on parallel label vectors. -/
def accuracy_score (y_true y_pred : List Nat) : ℚ :=
  ((y_true.zip y_pred).countP (fun q => q.1 == q.2) : ℚ) / (y_true.length : ℚ)

/-- Binary precision with an explicit zero-division value `zd`
(`sklearn` `zero_division=` semantics: the value is returned, never an
exception raised, when no sample is predicted positive). -/
def precision_zd (zd : ℚ) (y_true y_pred : List Nat) : ℚ :=
  let tp := tp_count y_true y_pred
  let fp := fp_count y_true y_pred
  if tp + fp = 0 then zd else (tp : ℚ) / ((tp + fp : Nat) : ℚ)

/-- Binary recall with an explicit zero-division value `zd`. -/
def recall_zd (zd : ℚ) (y_true y_pred : List Nat) : ℚ :=
  let tp := tp_count y_true y_pred
  let fn := fn_count y_true y_pred
  if tp + fn = 0 then zd else (tp : ℚ) / ((tp + fn : Nat) : ℚ)

/-- Binary F-measure `2·tp / (2·tp + fp + fn)` with an explicit
zero-division value `zd`, matching `sklearn.metrics.f1_score` with
`average='binary'` and the given `zero_division=`. -/
def f1_score_zd (zd : ℚ) (y_true y_pred : List Nat) : ℚ :=
  let tp := tp_count y_true y_pred
  let denom := 2 * tp + fp_count y_true y_pred + fn_count y_true y_pred
  if denom = 0 then zd else ((2 * tp : Nat) : ℚ) / ((denom : Nat) : ℚ)

/-- `confusion_matrix(y_true, y_pred).ravel()` for the binary case:
the tally `(tn, fp, fn, tp)` exactly as `evaluate_model` prints it. -/
def confusion_ravel (y_true y_pred : List Nat) : Nat × Nat × Nat × Nat :=
  (tn_count y_true y_pred, fp_count y_true y_pred,
   fn_count y_true y_pred, tp_count y_true y_pred)

/-- Values computed by `AuthorshipVerification.evaluate_model`
(`main.py` lines 363-395): the broadcast label vector the metrics are
compared against, the metrics themselves, the confusion tally and the
posterior probability. -/
structure EvalResult where
  comparedLabels : List Nat
  accuracy : ℚ
  f1 : ℚ
  precisionScore : ℚ
  recallScore : ℚ
  cf : Nat × Nat × Nat × Nat
  posterior : ℚ

/-- Embedding of `AuthorshipVerification.evaluate_model`.  The
classifier's outputs on the test matrix are taken as data: `y_pred` is
`clf.predict(X_test)` and `probabilities` is `clf.predict_proba(X_test)`;
`n_rows` is `X_test.shape[0]`.  The label vector is the Python list
repetition `y_test * n_rows`; the posterior is the median of the
probability each row assigns to its own predicted class (computed only
when `return_proba`, the attribute keeping its previous value
otherwise); the metrics use `zero_division=1.0` as in the source. -/
def evaluate_model (prevPosterior : ℚ) (return_proba : Bool) (y_test : List Nat)
    (n_rows : Nat) (y_pred : List Nat) (probabilities : List (List ℚ)) : EvalResult :=
  let yb := broadcast_labels y_test n_rows
  { comparedLabels := yb
    accuracy := accuracy_score yb y_pred
    f1 := f1_score_zd 1 yb y_pred
    precisionScore := precision_zd 1 yb y_pred
    recallScore := recall_zd 1 yb y_pred
    cf := confusion_ravel yb y_pred
    posterior :=
      if return_proba then
        npMedian ((probabilities.zip y_pred).map (fun pc => pc.1.getD pc.2 0))
      else prevPosterior }

/-- The spec's words for the posterior aggregation: the median, over the
test rows, of the probability assigned to each row's predicted class. -/
def median_predicted_class_proba (probabilities : List (List ℚ))
    (y_pred : List Nat) : ℚ :=
  npMedian (List.zipWith (fun p c => p.getD c 0) probabilities y_pred)

/-- The two values of the `class_weight` hyperparameter grid of
`train_model`: `'balanced'` and `None`. -/
inductive ClassWeightOpt where
  | balanced
  | unweighted
deriving DecidableEq

/-- `np.logspace(-4, 4, 9)`: the `C` grid of `train_model`. -/
def np_logspace_m4_4 : List ℚ :=
  [1/10000, 1/1000, 1/100, 1/10, 1, 10, 100, 1000, 10000]

/-- Configuration assembled by `AuthorshipVerification.train_model`
(`main.py` lines 332-361): the `StratifiedGroupKFold(n_splits=5,
shuffle=True, random_state=...)` splitter, the hyperparameter grid, the
`make_scorer(f1_score, zero_division=0)` selection metric and the group
vector passed to `grid_search.fit(..., groups=groups_dev)`. -/
structure TrainedGridSearch where
  n_splits : Nat
  shuffle : Bool
  random_state : Nat
  param_C : List ℚ
  param_class_weight : List ClassWeightOpt
  scoring : List Nat → List Nat → ℚ
  cv_groups : List Str

/-- Embedding of `AuthorshipVerification.train_model`. -/
def train_model (random_state : Nat) (groups_dev : List Str) : TrainedGridSearch :=
  { n_splits := 5
    shuffle := true
    random_state := random_state
    param_C := np_logspace_m4_4
    param_class_weight := [ClassWeightOpt.balanced, ClassWeightOpt.unweighted]
    scoring := f1_score_zd 0
    cv_groups := groups_dev }

/-- Modelled from the spec: `StratifiedGroupKFold` (the external
scikit-learn splitter, not under `src/`) assigns each distinct group
wholly to exactly one of the folds; for a fold `f` the validation
portion consists of the samples whose group is assigned to `f`. -/
def fold_val_groups (assign : Str → Fin 5) (groups : List Str) (f : Fin 5) : List Str :=
  groups.filter (fun g => assign g == f)

/-- Modelled from the spec: the training portion of fold `f` consists of
the samples whose group is assigned to any other fold. -/
def fold_train_groups (assign : Str → Fin 5) (groups : List Str) (f : Fin 5) : List Str :=
  groups.filter (fun g => !(assign g == f))

/-- Accumulator form of `_compute_feature_set_idx` (`main.py` lines
312-330): running `start_idx`/`end_idx` over the per-view column counts,
emitting one half-open interval per view in registration order. -/
def compute_feature_set_idx_from (start_idx : Nat) : List Nat → List (Nat × Nat)
  | [] => []
  | cols :: rest => (start_idx, start_idx + cols) ::
      compute_feature_set_idx_from (start_idx + cols) rest

/-- Embedding of `AuthorshipVerification._compute_feature_set_idx`: the
per-view matrices are abstracted to their column counts (`fset.shape[1]`
after the source's 1-D reshape); the insertion-ordered dict becomes the
ordered list of `(start, end)` interval records. -/
def compute_feature_set_idx (view_cols : List Nat) : List (Nat × Nat) :=
  compute_feature_set_idx_from 0 view_cols

/-- Concrete annotation whose `char_span` always fails, for evaluating
the alignment-failure behaviour on explicit inputs. -/
def pdocNone : PDoc Unit := ⟨fun _ => 0, fun _ _ => none⟩

/-- Concrete annotation whose `char_span` always succeeds, for
evaluating the first-try behaviour on explicit inputs. -/
def pdocSome : PDoc Unit := ⟨fun _ => 0, fun _ _ => some ()⟩

/-- Concrete processed-document cache holding every key, for evaluating
the placeholder behaviour on explicit inputs. -/
def cacheAll : Str → Option (PDoc Unit) := fun _ => some pdocNone

/-- Mapping a pairing over a zip is the pointwise zip (helper shared by
the posterior-aggregation proofs). -/
theorem zip_map_eq_zipWith {α β γ : Type} (f : α → β → γ) (l1 : List α) (l2 : List β) :
    (l1.zip l2).map (fun p => f p.1 p.2) = List.zipWith f l1 l2 := by
  induction l1 generalizing l2 with
  | nil => cases l2 <;> rfl
  | cons a t ih =>
    cases l2 with
    | nil => rfl
    | cons b t2 => simp [ih]

/-- Nodup lists lose the element at an erased index (helper for the
leave-one-out split). -/
theorem getD_not_mem_eraseIdx (l : List Str) (i : Nat) (hi : i < l.length)
    (hnd : l.Nodup) : l.getD i [] ∉ l.eraseIdx i := by
  induction l generalizing i with
  | nil => simp at hi
  | cons a t ih =>
    cases i with
    | zero =>
      simpa using (List.nodup_cons.mp hnd).1
    | succ j =>
      have hj : j < t.length := by simpa using hi
      simp only [List.getD_cons_succ, List.eraseIdx_cons_succ]
      intro hmem
      rcases List.mem_cons.mp hmem with h1 | h2
      · have hin : t.getD j [] ∈ t := by
          rw [List.getD_eq_getElem t [] hj]
          exact List.getElem_mem hj
        rw [h1] at hin
        exact (List.nodup_cons.mp hnd).1 hin
      · exact ih j hj (List.nodup_cons.mp hnd).2 h2

/-- Interval starts emitted by the column-index accumulator never fall
below the running start (helper for the partition proof). -/
theorem compute_feature_set_idx_from_mem (s : Nat) (cols : List Nat) :
    ∀ p ∈ compute_feature_set_idx_from s cols, s ≤ p.1 ∧ p.1 ≤ p.2 := by
  induction cols generalizing s with
  | nil => simp [compute_feature_set_idx_from]
  | cons c rest ih =>
    intro p hp
    simp only [compute_feature_set_idx_from, List.mem_cons] at hp
    rcases hp with h | h
    · subst h; exact ⟨le_refl s, Nat.le_add_right s c⟩
    · have hb := ih (s + c) p h
      exact ⟨le_trans (Nat.le_add_right s c) hb.1, hb.2⟩

/-- Consecutive intervals: each one ends where the next begins (helper
for the partition proof). -/
theorem compute_feature_set_idx_from_chain (s : Nat) (cols : List Nat) :
    List.Chain' (fun p q => p.2 = q.1) (compute_feature_set_idx_from s cols) := by
  induction cols generalizing s with
  | nil => simp [compute_feature_set_idx_from]
  | cons c rest ih =>
    cases rest with
    | nil => simp [compute_feature_set_idx_from]
    | cons c2 rest2 =>
      have htail := ih (s + c)
      simp only [compute_feature_set_idx_from] at htail ⊢
      exact (List.chain'_cons).mpr ⟨rfl, htail⟩

/-- Pairwise disjointness of the emitted intervals (helper for the
partition proof). -/
theorem compute_feature_set_idx_from_pairwise (s : Nat) (cols : List Nat) :
    List.Pairwise (fun p q => Disjoint (Finset.Ico p.1 p.2) (Finset.Ico q.1 q.2))
      (compute_feature_set_idx_from s cols) := by
  induction cols generalizing s with
  | nil => simp [compute_feature_set_idx_from]
  | cons c rest ih =>
    simp only [compute_feature_set_idx_from]
    refine List.Pairwise.cons ?_ (ih (s + c))
    intro q hq
    have hb := compute_feature_set_idx_from_mem (s + c) rest q hq
    refine Finset.disjoint_left.mpr ?_
    intro x hx hx2
    have h1 : x < s + c := (Finset.mem_Ico.mp hx).2
    have h2 : s + c ≤ q.1 := hb.1
    have h3 : q.1 ≤ x := (Finset.mem_Ico.mp hx2).1
    omega

/-- The union of the emitted intervals is the half-open range from the
running start to the total column count (helper for the partition
proof). -/
theorem compute_feature_set_idx_from_union (s : Nat) (cols : List Nat) :
    ((compute_feature_set_idx_from s cols).map (fun p => Finset.Ico p.1 p.2)).foldr
      (· ∪ ·) ∅ = Finset.Ico s (s + cols.sum) := by
  induction cols generalizing s with
  | nil => simp [compute_feature_set_idx_from]
  | cons c rest ih =>
    simp only [compute_feature_set_idx_from, List.map_cons, List.foldr_cons,
      ih (s + c), List.sum_cons]
    rw [Finset.Ico_union_Ico_eq_Ico (Nat.le_add_right s c) (by omega)]
    rw [Nat.add_assoc]

/-- One interval is emitted per view (helper for the partition proof). -/
theorem compute_feature_set_idx_from_length (s : Nat) (cols : List Nat) :
    (compute_feature_set_idx_from s cols).length = cols.length := by
  induction cols generalizing s with
  | nil => rfl
  | cons c rest ih => simp [compute_feature_set_idx_from, ih (s + c)]

/-- Claim C1: `train_model` performs grouped, stratified 5-fold
cross-validated hyperparameter search — the splitter is configured with
five folds, the grouping key is exactly the group vector handed to
`fit`, no group id can appear in both the training and the validation
portion of any fold, and the selection metric is positive-class
F-measure with zero-division scored as 0 rather than raised. -/
theorem train_model_grouped_stratified_cv (rs : Nat) (gs : List Str) :
    (train_model rs gs).n_splits = 5 ∧
    (train_model rs gs).shuffle = true ∧
    (train_model rs gs).scoring = f1_score_zd 0 ∧
    (train_model rs gs).cv_groups = gs ∧
    ∀ (assign : Str → Fin 5) (f : Fin 5),
      (fold_train_groups assign gs f) ∩ (fold_val_groups assign gs f) = [] := by
  refine ⟨rfl, rfl, rfl, rfl, ?_⟩
  intro assign f
  apply List.eq_nil_iff_forall_not_mem.mpr
  intro g hg
  rcases List.mem_inter_iff.mp hg with ⟨ht, hv⟩
  have h1 := (List.mem_filter.mp ht).2
  have h2 := (List.mem_filter.mp hv).2
  simp only [beq_iff_eq, Bool.not_eq_true'] at h1 h2
  rw [h2] at h1
  simp at h1

/-- Claim C2: the posterior confidence computed by `evaluate_model` is
the median, over the test rows, of the probability assigned to each
row's predicted class. -/
theorem evaluate_model_posterior_is_median (prev : ℚ) (y_test : List Nat)
    (n_rows : Nat) (y_pred : List Nat) (probabilities : List (List ℚ)) :
    (evaluate_model prev true y_test n_rows y_pred probabilities).posterior =
      median_predicted_class_proba probabilities y_pred := by
  simp only [evaluate_model, median_predicted_class_proba, if_true]
  rw [zip_map_eq_zipWith (fun p c => p.getD c 0) probabilities y_pred]

/-- Claim C3: `loo_split` removes exactly the document at position `i` —
by index, as a take/drop around `i` — so the training pool has size one
less than the input pool and, the filenames being distinct, contains no
group id of document `i`. -/
theorem loo_split_removes_exactly_index (i : Nat) (X : List Str) (y : List Nat)
    (doc : Str) (ylabel : Nat) (filenames : List Str)
    (hi : i < filenames.length) (hX : X.length = filenames.length)
    (hnd : filenames.Nodup) :
    (loo_split i X y doc ylabel filenames).X_dev = X.take i ++ X.drop (i + 1) ∧
    (loo_split i X y doc ylabel filenames).X_dev.length = X.length - 1 ∧
    (loo_split i X y doc ylabel filenames).groups_dev.length = filenames.length - 1 ∧
    filenames.getD i [] ∉ (loo_split i X y doc ylabel filenames).groups_dev := by
  refine ⟨List.eraseIdx_eq_take_drop_succ X i, ?_, ?_,
    getD_not_mem_eraseIdx filenames i hi hnd⟩
  · show (X.eraseIdx i).length = X.length - 1
    rw [List.length_eraseIdx, if_pos (by omega)]
  · show (filenames.eraseIdx i).length = filenames.length - 1
    rw [List.length_eraseIdx, if_pos hi]

/-- Witness for claim C3 at a concrete three-document pool. -/
theorem loo_split_removes_exactly_index_witness :
    (loo_split 1 [['a'], ['b'], ['c']] [0, 1, 0] ['b'] 1
        [['f'], ['g'], ['h']]).X_dev =
      [['a'], ['b'], ['c']].take 1 ++ [['a'], ['b'], ['c']].drop 2 ∧
    (loo_split 1 [['a'], ['b'], ['c']] [0, 1, 0] ['b'] 1
        [['f'], ['g'], ['h']]).X_dev.length = [['a'], ['b'], ['c']].length - 1 ∧
    (loo_split 1 [['a'], ['b'], ['c']] [0, 1, 0] ['b'] 1
        [['f'], ['g'], ['h']]).groups_dev.length = [['f'], ['g'], ['h']].length - 1 ∧
    [['f'], ['g'], ['h']].getD 1 [] ∉
      (loo_split 1 [['a'], ['b'], ['c']] [0, 1, 0] ['b'] 1
        [['f'], ['g'], ['h']]).groups_dev :=
  loo_split_removes_exactly_index 1 [['a'], ['b'], ['c']] [0, 1, 0] ['b'] 1
    [['f'], ['g'], ['h']] (by decide) (by decide) (by decide)

/-- Claim C7: the column-range index assigns the views consecutive
half-open intervals in registration order — one per view, each ending
where the next begins, pairwise disjoint, with union exactly
`[0, total_columns)`. -/
theorem compute_feature_set_idx_partitions (view_cols : List Nat) :
    (compute_feature_set_idx view_cols).length = view_cols.length ∧
    List.Chain' (fun p q => p.2 = q.1) (compute_feature_set_idx view_cols) ∧
    List.Pairwise (fun p q => Disjoint (Finset.Ico p.1 p.2) (Finset.Ico q.1 q.2))
      (compute_feature_set_idx view_cols) ∧
    ((compute_feature_set_idx view_cols).map (fun p => Finset.Ico p.1 p.2)).foldr
      (· ∪ ·) ∅ = Finset.Ico 0 view_cols.sum := by
  refine ⟨compute_feature_set_idx_from_length 0 view_cols,
    compute_feature_set_idx_from_chain 0 view_cols,
    compute_feature_set_idx_from_pairwise 0 view_cols, ?_⟩
  simpa using compute_feature_set_idx_from_union 0 view_cols

/-- Filtering an enumeration on a property of the values keeps one entry
per matching value (helper for the selector-resolution proofs). -/
theorem enumFrom_filter_snd_length {α : Type} (l : List α) (p : α → Bool) (n : Nat) :
    ((l.enumFrom n).filter (fun q => p q.2)).length = l.countP p := by
  induction l generalizing n with
  | nil => rfl
  | cons a t ih =>
    simp only [List.enumFrom, List.filter, List.countP_cons]
    cases hp : p a with
    | true => simp [hp, ih]
    | false => simp [hp, ih]

/-- Counting a property of the second components of a zip of equally
long lists counts it on the second list (helper for the
selector-resolution proofs). -/
theorem zip_countP_snd (fns auths : List Str) (p : Str → Bool)
    (h : fns.length = auths.length) :
    (fns.zip auths).countP (fun q => p q.2) = auths.countP p := by
  induction fns generalizing auths with
  | nil =>
    cases auths with
    | nil => rfl
    | cons b t2 => simp at h
  | cons a t ih =>
    cases auths with
    | nil => simp at h
    | cons b t2 =>
      simp only [List.zip_cons_cons, List.countP_cons]
      rw [ih t2 (by simpa using h)]

/-- Counterexample to claim C4: the selector `A` names the corpus
document whose filename-derived id is `A` (run-internal filename
`A_0`), yet `run` resolves it by substring containment and selects both
`A_0` and `AB_0` — two held-out units, not a single-document test. -/
theorem run_test_indices_substring_counterexample :
    run_test_indices ['A'] [['A', '_', '0'], ['A', 'B', '_', '0']]
        [['X'], ['Y']] ['X'] = [0, 1] ∧
    (run_test_indices ['A'] [['A', '_', '0'], ['A', 'B', '_', '0']]
        [['X'], ['Y']] ['X']).length ≠ 1 := by
  decide

/-- Claim C4 as amended: an empty selector yields exactly one held-out
unit per document whose stripped author equals the target; a non-empty
selector yields one held-out unit per document whose filename contains
the selector as a substring (a single-document test exactly when one
filename contains it). -/
theorem run_test_indices_resolution (test_document : Str)
    (filenames authors : List Str) (target : Str)
    (hlen : filenames.length = authors.length) :
    (test_document = [] →
      (run_test_indices test_document filenames authors target).length =
        authors.countP (fun a => rstrip a == target)) ∧
    (test_document ≠ [] →
      (run_test_indices test_document filenames authors target).length =
        filenames.countP (fun fn => containsSub fn test_document)) := by
  constructor
  · intro he
    subst he
    show ((((filenames.zip authors).enum.filter
      (fun p => rstrip p.2.2 == target)).map Prod.fst)).length = _
    rw [List.length_map]
    exact (enumFrom_filter_snd_length (filenames.zip authors)
      (fun ab => rstrip ab.2 == target) 0).trans
      (zip_countP_snd filenames authors (fun a => rstrip a == target) hlen)
  · intro hne
    have hb : test_document.isEmpty = false := by
      cases test_document with
      | nil => simp at hne
      | cons c t => rfl
    show (if test_document.isEmpty then _ else _ : List Nat).length = _
    rw [hb]
    simp only [Bool.false_eq_true, if_false, List.length_map]
    exact enumFrom_filter_snd_length filenames
      (fun fn => containsSub fn test_document) 0

/-- Witness for the amended claim C4 at a concrete two-document corpus:
the empty selector yields one unit per target-author document. -/
theorem run_test_indices_resolution_witness :
    (run_test_indices [] [['a'], ['b']] [['X'], ['Y']] ['X']).length =
      [['X'], ['Y']].countP (fun a => rstrip a == ['X']) :=
  (run_test_indices_resolution [] [['a'], ['b']] [['X'], ['Y']] ['X']
    (by decide)).1 rfl

/-- Repeating a one-element list `n` times is `n` copies of the element
(Python `[y] * n`, helper for the broadcast proof). -/
theorem pyListMul_singleton (a : Nat) (n : Nat) :
    pyListMul [a] n = List.replicate n a := by
  induction n with
  | zero => rfl
  | succ m ih =>
    simp only [pyListMul, List.replicate_succ, List.flatten_cons] at ih ⊢
    rw [ih]
    simp [List.replicate_succ]

/-- Claim C5: `evaluate_model` compares all its metrics against the
single held-out document label broadcast once per test row, so the
compared label vector has exactly as many entries as there are
predictions. -/
theorem evaluate_model_label_broadcast (prev : ℚ) (rp : Bool) (y0 : Nat)
    (n_rows : Nat) (y_pred : List Nat) (probabilities : List (List ℚ))
    (hlen : y_pred.length = n_rows) :
    (evaluate_model prev rp [y0] n_rows y_pred probabilities).comparedLabels =
        List.replicate n_rows y0 ∧
    (evaluate_model prev rp [y0] n_rows y_pred probabilities).comparedLabels.length =
        y_pred.length ∧
    (evaluate_model prev rp [y0] n_rows y_pred probabilities).accuracy =
        accuracy_score (List.replicate n_rows y0) y_pred ∧
    (evaluate_model prev rp [y0] n_rows y_pred probabilities).f1 =
        f1_score_zd 1 (List.replicate n_rows y0) y_pred ∧
    (evaluate_model prev rp [y0] n_rows y_pred probabilities).precisionScore =
        precision_zd 1 (List.replicate n_rows y0) y_pred ∧
    (evaluate_model prev rp [y0] n_rows y_pred probabilities).recallScore =
        recall_zd 1 (List.replicate n_rows y0) y_pred ∧
    (evaluate_model prev rp [y0] n_rows y_pred probabilities).cf =
        confusion_ravel (List.replicate n_rows y0) y_pred := by
  have hb : broadcast_labels [y0] n_rows = List.replicate n_rows y0 :=
    pyListMul_singleton y0 n_rows
  refine ⟨?_, ?_, ?_, ?_, ?_, ?_, ?_⟩ <;>
    simp only [evaluate_model, hb, List.length_replicate, hlen]

/-- Counterexample to claim C8: with a selector matching no document the
run resolves zero held-out units and completes normally — it raises no
configuration error and does not fail. -/
theorem run_outcome_no_error_counterexample :
    run_outcome ['Z'] [['A', '_', '0']] [['X']] ['X'] = RunOutcome.ok [] ∧
    (run_outcome ['Z'] [['A', '_', '0']] [['X']] ['X']).isConfigError = false := by
  decide

/-- Claim C8 as amended: `run` performs no selector validation — it
always completes normally, processing exactly the resolved indices; in
particular an unresolvable selector yields a normal completion with
zero held-out units processed, not an error. -/
theorem run_outcome_always_completes (test_document : Str)
    (filenames authors : List Str) (target : Str) :
    run_outcome test_document filenames authors target =
      RunOutcome.ok (run_test_indices test_document filenames authors target) ∧
    (run_test_indices test_document filenames authors target = [] →
      run_outcome test_document filenames authors target = RunOutcome.ok []) := by
  refine ⟨rfl, ?_⟩
  intro h
  simp [run_outcome, h]

/-- Witness for the amended claim C8 at a concrete unmatched selector. -/
theorem run_outcome_always_completes_witness :
    run_outcome ['Q'] [['A', '_', '0']] [['X']] ['X'] = RunOutcome.ok [] :=
  (run_outcome_always_completes ['Q'] [['A', '_', '0']] [['X']] ['X']).2 (by decide)

/-- Stripping two characters twice strips four in total (helper for the
result-record proofs). -/
theorem saved_document_test_field_eq_drop4 (g : Str) :
    saved_document_test_field g = pySliceDropLast 4 g := by
  simp only [saved_document_test_field, save_results_document_test,
    process_single_document_doc_name, pySliceDropLast, List.take_take,
    List.length_take]
  congr 1
  omega

/-- Dropping the last four characters of a whole-document group id
recovers the run-internal document id (helper shared by the cache-key
and result-record proofs). -/
theorem whole_group_drop4 (f : Str) :
    pySliceDropLast 4 (wholeDocGroup (runDocId f)) = runDocId f := by
  simp only [wholeDocGroup, runDocId, pySliceDropLast, List.append_assoc]
  rw [← List.append_assoc f uz (uz ++ uz)]
  have h2 : (f ++ uz ++ (uz ++ uz)).length - 4 = (f ++ uz).length := by
    simp [uz]
  rw [h2]
  exact List.take_left (f ++ uz) (uz ++ uz)

/-- Counterexample to claim C10: for the document with loader filename
`Doc` (run-internal id `Doc_0`, whole-document test group `Doc_0_0_0`)
the recorded `Document test` value is `Doc_0` — exactly the run-internal
filename-derived id, and no shorter than either candidate id, so the
recorded identifier is not a truncation of the document's id. -/
theorem saved_document_test_counterexample :
    saved_document_test_field (wholeDocGroup (runDocId ['D', 'o', 'c'])) =
      runDocId ['D', 'o', 'c'] ∧
    ¬ (saved_document_test_field (wholeDocGroup (runDocId ['D', 'o', 'c']))).length <
      (['D', 'o', 'c'] : Str).length ∧
    ¬ (saved_document_test_field (wholeDocGroup (runDocId ['D', 'o', 'c']))).length <
      (runDocId ['D', 'o', 'c']).length := by
  decide

/-- Claim C10 as amended: the `Document test` field equals the first
test group id with its last four characters removed in total — two at
the call site and two inside `save_results` — and for a whole-document
group this stripping exactly undoes the `_0_0` suffix, recording the
run-internal filename-derived id itself rather than a truncation of
it. -/
theorem saved_document_test_strips_four (f : Str) :
    saved_document_test_field (wholeDocGroup (runDocId f)) =
      pySliceDropLast 4 (wholeDocGroup (runDocId f)) ∧
    saved_document_test_field (wholeDocGroup (runDocId f)) = runDocId f :=
  ⟨saved_document_test_field_eq_drop4 _,
    (saved_document_test_field_eq_drop4 _).trans (whole_group_drop4 f)⟩

/-- When `get_processed_segments` completes (no cache `KeyError`), its
output has one entry per consumed input row and the failure count equals
the number of `None` placeholders appended (helper for the
alignment-failure proofs). -/
theorem get_processed_segments_length_count {S : Type} (sentHead : Str → Str)
    (cache : Str → Option (PDoc S)) :
    ∀ (X groups : List Str) (out : List (Option (PDoc S ⊕ S))) (cnt : Nat),
      get_processed_segments sentHead cache X groups = some (out, cnt) →
      out.length = min X.length groups.length ∧ cnt = out.countP Option.isNone := by
  intro X
  induction X with
  | nil =>
    intro groups out cnt h
    simp only [get_processed_segments, Option.some.injEq, Prod.mk.injEq] at h
    obtain ⟨h1, h2⟩ := h
    subst h1; subst h2
    simp
  | cons seg X ih =>
    intro groups out cnt h
    cases groups with
    | nil =>
      simp only [get_processed_segments, Option.some.injEq, Prod.mk.injEq] at h
      obtain ⟨h1, h2⟩ := h
      subst h1; subst h2
      simp
    | cons group groups =>
      simp only [get_processed_segments] at h
      split at h
      · -- whole-document branch
        cases hc : cache (wholeDocKey group) with
        | none => rw [hc] at h; exact absurd h (by simp)
        | some d =>
          rw [hc] at h
          cases hr : get_processed_segments sentHead cache X groups with
          | none => rw [hr] at h; exact absurd h (by simp)
          | some pr =>
            obtain ⟨rest, cnt0⟩ := pr
            rw [hr] at h
            simp only [Option.some.injEq, Prod.mk.injEq] at h
            obtain ⟨h1, h2⟩ := h
            subst h1; subst h2
            obtain ⟨hl, hcnt⟩ := ih groups rest cnt0 hr
            constructor
            · simp [hl, Nat.succ_min_succ]
            · simp [List.countP_cons, hcnt]
      · -- fragment branch
        cases hc : cache (fragmentKey group) with
        | none => rw [hc] at h; exact absurd h (by simp)
        | some d =>
          rw [hc] at h
          cases hr : get_processed_segments sentHead cache X groups with
          | none => rw [hr] at h; exact absurd h (by simp)
          | some pr =>
            obtain ⟨rest, cnt0⟩ := pr
            rw [hr] at h
            simp only [Option.some.injEq, Prod.mk.injEq] at h
            obtain ⟨h1, h2⟩ := h
            subst h1; subst h2
            obtain ⟨hl, hcnt⟩ := ih groups rest cnt0 hr
            constructor
            · simp [hl, Nat.succ_min_succ]
            · cases hps : find_segment sentHead seg d with
              | none => simp [hps, List.countP_cons, hcnt]
              | some sp => simp [hps, List.countP_cons, hcnt]

/-- Claim C6: when the exact character span aligns, `find_segment`
returns it; when it cannot be aligned, `find_segment` retries exactly
once with the end offset decremented by 1; and `get_processed_segments`
appends every sample — a failed alignment as a `None` placeholder
counted by the failure count — so the output has one entry per input
row. -/
theorem find_segment_retry_and_placeholder {S : Type} :
    (∀ (sentHead : Str → Str) (segment : Str) (d : PDoc S) (sp : S),
      d.charSpan (d.textFind (sentHead segment))
          (d.textFind (sentHead segment) + segment.length) = some sp →
      find_segment sentHead segment d = some sp) ∧
    (∀ (sentHead : Str → Str) (segment : Str) (d : PDoc S),
      d.charSpan (d.textFind (sentHead segment))
          (d.textFind (sentHead segment) + segment.length) = none →
      find_segment sentHead segment d =
        d.charSpan (d.textFind (sentHead segment))
          (d.textFind (sentHead segment) + segment.length - 1)) ∧
    (∀ (sentHead : Str → Str) (cache : Str → Option (PDoc S)) (X groups : List Str)
        (out : List (Option (PDoc S ⊕ S))) (cnt : Nat),
      groups.length = X.length →
      get_processed_segments sentHead cache X groups = some (out, cnt) →
      out.length = X.length ∧ cnt = out.countP Option.isNone) ∧
    (∀ (sentHead : Str → Str) (cache : Str → Option (PDoc S)) (segment group : Str)
        (d : PDoc S),
      pyEndswith group (uz ++ uz) = false →
      cache (fragmentKey group) = some d →
      find_segment sentHead segment d = none →
      get_processed_segments sentHead cache [segment] [group] = some ([none], 1)) := by
  refine ⟨?_, ?_, ?_, ?_⟩
  · intro sentHead segment d sp h
    simp only [find_segment, h]
  · intro sentHead segment d h
    simp only [find_segment, h]
  · intro sentHead cache X groups out cnt hg h
    obtain ⟨hl, hc⟩ := get_processed_segments_length_count sentHead cache X groups out cnt h
    exact ⟨by rw [hl, hg, Nat.min_self], hc⟩
  · intro sentHead cache segment group d hw hc hf
    simp [get_processed_segments, hw, hc, hf]

/-- Witness for claim C6 at concrete annotations: a succeeding span, a
doubly failing span recorded as a counted `None` placeholder, and the
one-entry-per-row output shape. -/
theorem find_segment_retry_and_placeholder_witness :
    find_segment id ['s'] pdocSome = some () ∧
    find_segment id ['s'] pdocNone = none ∧
    get_processed_segments id cacheAll [['s']] [['g']] = some ([none], 1) ∧
    ([(none : Option (PDoc Unit ⊕ Unit))].length = ([['s']] : List Str).length ∧
      1 = [(none : Option (PDoc Unit ⊕ Unit))].countP Option.isNone) :=
  ⟨(find_segment_retry_and_placeholder (S := Unit)).1 id ['s'] pdocSome () rfl,
    ((find_segment_retry_and_placeholder (S := Unit)).2.1 id ['s'] pdocNone rfl).trans rfl,
    (find_segment_retry_and_placeholder (S := Unit)).2.2.2 id cacheAll ['s'] ['g']
      pdocNone (by decide) rfl rfl,
    (find_segment_retry_and_placeholder (S := Unit)).2.2.1 id cacheAll [['s']] [['g']]
      [none] 1 rfl
      ((find_segment_retry_and_placeholder (S := Unit)).2.2.2 id cacheAll ['s'] ['g']
        pdocNone (by decide) rfl rfl)⟩

/-- In a string with no occurrence of `_0`, appending `_0` places the
first occurrence exactly at the string's length (helper for the
cache-key proofs). -/
theorem findSub_uz_append (f t : Str) (hf : findSub uz f = none) :
    findSub uz (f ++ uz ++ t) = some f.length := by
  induction f with
  | nil =>
    simp only [List.nil_append, List.length_nil]
    simp [uz, findSub, startsWith]
  | cons c f ih =>
    have hsplit : startsWith (c :: f) uz = false ∧ findSub uz f = none := by
      by_cases hs : startsWith (c :: f) uz = true
      · simp [findSub, hs] at hf
      · refine ⟨by simpa using hs, ?_⟩
        simp only [findSub, hs, Bool.false_eq_true, if_false] at hf
        cases hfind : findSub uz f with
        | none => rfl
        | some k => rw [hfind] at hf; simp at hf
    obtain ⟨h1, h2⟩ := hsplit
    have ihr := ih h2
    simp only [List.cons_append, List.length_cons]
    have hsw : startsWith (c :: (f ++ uz ++ t)) uz = false := by
      cases f with
      | nil =>
        simp [uz, startsWith]
      | cons c2 f2 =>
        simp only [uz, startsWith, List.cons_append] at h1 ⊢
        by_cases hc : c = '_'
        · by_cases hc2 : c2 = '0'
          · rw [hc, hc2] at h1; simp [startsWith] at h1
          · simp [hc, hc2]
        · simp [hc]
    simp only [findSub, hsw, Bool.false_eq_true, if_false]
    rw [ihr]
    rfl

/-- Claim C9: for a parent document with loader filename `f` (cached by
`run` under `f_0`), the whole-document branch of
`get_processed_segments` derives the cache key `f_0` (last four
characters of the group id removed) while the fragment branch derives
the shorter key `f` (prefix before the first `_0`); the two keys differ,
the whole-document lookup hits the cache populated by `run`, the
fragment lookup misses it, a miss makes `get_processed_segments` raise
(overall `none`) rather than append a placeholder, and a fragment-branch
run succeeds only if the shorter key is present in the cache. -/
theorem get_processed_segments_cache_keys {S : Type} (f t : Str) (d : PDoc S)
    (hf : findSub uz f = none)
    (hw : pyEndswith (f ++ uz ++ t) (uz ++ uz) = false) :
    wholeDocKey (wholeDocGroup (runDocId f)) = runDocId f ∧
    fragmentKey (f ++ uz ++ t) = f ∧
    runDocId f ≠ f ∧
    (fun k => if k = runDocId f then some d else none)
      (wholeDocKey (wholeDocGroup (runDocId f))) = some d ∧
    (fun k => if k = runDocId f then some d else none)
      (fragmentKey (f ++ uz ++ t)) = none ∧
    (∀ (sentHead : Str → Str) (segment : Str),
      get_processed_segments sentHead
        (fun k => if k = runDocId f then some d else none)
        [segment] [f ++ uz ++ t] = none) ∧
    (∀ (sentHead : Str → Str) (cache : Str → Option (PDoc S)) (segment : Str),
      (get_processed_segments sentHead cache [segment] [f ++ uz ++ t]).isSome = true →
      (cache f).isSome = true) := by
  have hwhole : wholeDocKey (wholeDocGroup (runDocId f)) = runDocId f :=
    whole_group_drop4 f
  have hfrag : fragmentKey (f ++ uz ++ t) = f := by
    simp only [fragmentKey, findSub_uz_append f t hf]
    rw [List.append_assoc]
    exact List.take_left f (uz ++ t)
  have hne : runDocId f ≠ f := by
    intro h
    have hl := congrArg List.length h
    simp [runDocId, uz] at hl
  have hw2 : pyEndswith (f ++ (uz ++ t)) (uz ++ uz) = false := by
    rw [← List.append_assoc]; exact hw
  have hfrag2 : fragmentKey (f ++ (uz ++ t)) = f := by
    rw [← List.append_assoc]; exact hfrag
  refine ⟨hwhole, hfrag, hne, ?_, ?_, ?_, ?_⟩
  · simp [hwhole]
  · simp only [hfrag]
    exact if_neg (Ne.symm hne)
  · intro sentHead segment
    simp [get_processed_segments, hw, hw2, hfrag, hfrag2, Ne.symm hne]
  · intro sentHead cache segment hs
    simp [get_processed_segments, hw, hw2, hfrag, hfrag2] at hs
    cases hcf : cache f with
    | none => rw [hcf] at hs; simp at hs
    | some d2 => simp [hcf]

/-- Witness for claim C9 at the concrete loader filename `D` (cache key
`D_0`, whole-document group `D_0_0_0`, fragment group `D_0_1_0`). -/
theorem get_processed_segments_cache_keys_witness :
    wholeDocKey (wholeDocGroup (runDocId ['D'])) = runDocId ['D'] ∧
    fragmentKey (['D'] ++ uz ++ ['_', '1', '_', '0']) = ['D'] ∧
    get_processed_segments id
      (fun k => if k = runDocId ['D'] then some pdocNone else none)
      [['s']] [['D'] ++ uz ++ ['_', '1', '_', '0']] = none :=
  have h := get_processed_segments_cache_keys (S := Unit) ['D'] ['_', '1', '_', '0']
    pdocNone (by decide) (by decide)
  ⟨h.1, h.2.1, h.2.2.2.2.2.1 id ['s']⟩

/-- Witness for claim C5 at a concrete two-row test set. -/
theorem evaluate_model_label_broadcast_witness :
    (evaluate_model 0 true [1] 2 [1, 0] [[0, 1], [1, 0]]).comparedLabels =
        List.replicate 2 1 ∧
    (evaluate_model 0 true [1] 2 [1, 0] [[0, 1], [1, 0]]).comparedLabels.length =
        ([1, 0] : List Nat).length ∧
    (evaluate_model 0 true [1] 2 [1, 0] [[0, 1], [1, 0]]).accuracy =
        accuracy_score (List.replicate 2 1) [1, 0] ∧
    (evaluate_model 0 true [1] 2 [1, 0] [[0, 1], [1, 0]]).f1 =
        f1_score_zd 1 (List.replicate 2 1) [1, 0] ∧
    (evaluate_model 0 true [1] 2 [1, 0] [[0, 1], [1, 0]]).precisionScore =
        precision_zd 1 (List.replicate 2 1) [1, 0] ∧
    (evaluate_model 0 true [1] 2 [1, 0] [[0, 1], [1, 0]]).recallScore =
        recall_zd 1 (List.replicate 2 1) [1, 0] ∧
    (evaluate_model 0 true [1] 2 [1, 0] [[0, 1], [1, 0]]).cf =
        confusion_ravel (List.replicate 2 1) [1, 0] :=
  evaluate_model_label_broadcast 0 true 1 2 [1, 0] [[0, 1], [1, 0]] (by decide)
